import Mathlib

/-!
Shallow embedding of the wallet-tool program (src/wallet-tool.cpp).

A wallet container file is modelled as a `List Nat` of byte values; machine
reads are modelled with explicit `List.drop`/`List.take`.  The two scanning
loops of `WalletTool::dumpAllKeys` are embedded as structural recursions on a
fuel argument (the loop cursor `i` strictly increases each iteration and the
loop runs only while `i + 4 ≤ file.length`, so `fuel = file.length` is always
enough; see the sufficiency hypotheses `file.length ≤ i + fuel` in the lemmas).
The contents of the `malloc`ed buffers, which the source never initialises, are
passed in as explicit parameters `u48`/`u123`.
-/

/-- The 4 ASCII bytes of the literal tag "mkey". -/
def mkeyTag : List Nat := [109, 107, 101, 121]

/-- The 4 ASCII bytes of the literal tag "ckey". -/
def ckeyTag : List Nat := [99, 107, 101, 121]

/-- The 4 bytes obtained by `fread(mkey, 1, 4, wallet)` at absolute position
`i` (the loop condition guarantees 4 bytes are available before the body
runs, so elsewhere this is only compared to a tag under `i + 4 ≤ file.length`). -/
def tagAt (file : List Nat) (i : Nat) : List Nat :=
  (file.drop i).take 4

/-- Effect of `fread(buf, 1, n, f)` at absolute file position `start` on a
buffer: the available bytes (at most `n`, stopping at end of file) overwrite
the front of the buffer and the remaining tail of the buffer keeps whatever
content it had before, exactly as an unchecked short `fread` leaves it. -/
def freadInto (file : List Nat) (start n : Nat) (buf : List Nat) : List Nat :=
  (file.drop start).take n ++ buf.drop (min n (file.length - start))

/-- One stream insertion `ss << std::hex << v` for `0 ≤ v < 256`: the minimal
lowercase hexadecimal digit sequence of `v` (`Nat.digitChar` yields the
lowercase digits `0`-`9a`-`f` for values below 16). -/
def hexDigits (v : Nat) : List Char :=
  if v < 16 then [Nat.digitChar v] else [Nat.digitChar (v / 16), Nat.digitChar (v % 16)]

/-- Effect of `std::setw(2)` with `std::setfill(48)` on one insertion: pad on
the left with the digit zero up to width 2. -/
def setwPad2 (l : List Char) : List Char :=
  if l.length < 2 then '0' :: l else l

/-- `WalletTool::tohex`: each byte is masked with `& 0xff` (modelled `% 256`)
and printed in lowercase hexadecimal, zero-padded to width 2, in buffer
order. -/
def tohex (bytes : List Nat) : String :=
  ⟨(bytes.map (fun b => setwPad2 (hexDigits (b % 256)))).flatten⟩

/-- The master-key loop of `WalletTool::dumpAllKeys` (first pass): starting at
cursor `i`, return the position of the first matched "mkey" tag, advancing
the cursor by 1 each iteration, while 4 bytes can be read at the cursor. -/
def firstMkeyAux (file : List Nat) : Nat → Nat → Option Nat
  | 0, _ => none
  | fuel + 1, i =>
    if i + 4 ≤ file.length then
      if tagAt file i = mkeyTag then some i
      else firstMkeyAux file fuel (i + 1)
    else none

/-- The check-key loop of `WalletTool::dumpAllKeys` (second pass): on a "ckey"
match at cursor `i` the code calls `fseek(wallet, i - 52, SEEK_SET)` (a
negative target makes the seek fail and leaves the position just after the
tag, `i + 4`), reads 123 bytes into the 123-byte buffer without checking the
count, prints the hex of the first 48 buffer bytes, and does `i += 3` before
the uniform `i++`, so the next tested position is `i + 4`; otherwise the next
tested position is `i + 1`. -/
def ckeyScanAux (file : List Nat) : Nat → List Nat → Nat → List String
  | 0, _, _ => []
  | fuel + 1, buf, i =>
    if i + 4 ≤ file.length then
      if tagAt file i = ckeyTag then
        ("encrypted ckey: " ++
            tohex ((freadInto file (if i < 52 then i + 4 else i - 52) 123 buf).take 48)) ::
          ckeyScanAux file fuel (freadInto file (if i < 52 then i + 4 else i - 52) 123 buf)
            (i + 4)
      else ckeyScanAux file fuel buf (i + 1)
    else []

/-- The standard-output lines of `WalletTool::dumpAllKeys` on an opened file:
if the master-key pass finds no "mkey" tag the function prints the
no-master-key message and returns without running the check-key pass; on the
first "mkey" match at `p` it does `fseek(wallet, p - 72, SEEK_SET)` (failing
and staying at `p + 4` when `p < 72`), reads 48 bytes into the 48-byte buffer
without checking the count, prints the hex line plus a blank line, rewinds,
and runs the check-key pass. -/
def dumpKeysOutput (file u48 u123 : List Nat) : List String :=
  match firstMkeyAux file file.length 0 with
  | none => ["There is no Master Key in the file"]
  | some p =>
    ("Mkey_encrypted: " ++
        tohex (freadInto file (if p < 72 then p + 4 else p - 72) 48 u48)) :: "" ::
      ckeyScanAux file file.length u123 0

/-- `WalletTool::dumpAllKeys` including the `fopen` failure path (a file that
cannot be opened is modelled as `none`). -/
def dumpAllKeys (path : String) (contents : Option (List Nat)) (u48 u123 : List Nat) :
    Except String (List String) :=
  match contents with
  | none => .error ("Cannot open file " ++ path)
  | some file => .ok (dumpKeysOutput file u48 u123)

/-- Positions at which the check-key pass matches a "ckey" tag, following the
cursor schedule of the loop (advance by 4 after a match, else by 1).  Because
"ckey" cannot overlap itself, `ckeyPosAux_mem` below proves this is exactly
the set of all "ckey" occurrences, in ascending order. -/
def ckeyPosAux (file : List Nat) : Nat → Nat → List Nat
  | 0, _ => []
  | fuel + 1, i =>
    if i + 4 ≤ file.length then
      if tagAt file i = ckeyTag then i :: ckeyPosAux file fuel (i + 4)
      else ckeyPosAux file fuel (i + 1)
    else []

/-- All positions of "ckey" occurrences in the file, in ascending order. -/
def ckeyPositions (file : List Nat) : List Nat :=
  ckeyPosAux file file.length 0

/-- `WalletTool::isValidHexString`: exactly 10 characters, each in the ranges
0-9, a-f or A-F. -/
def isValidHexString (s : String) : Bool :=
  s.length == 10 &&
    s.data.all (fun c =>
      (decide ('0' ≤ c) && decide (c ≤ '9')) ||
      (decide ('a' ≤ c) && decide (c ≤ 'f')) ||
      (decide ('A' ≤ c) && decide (c ≤ 'F')))

/-- The option fields of class `WalletTool` with their in-class initialisers;
`helpShown` records the early `return` taken on `--help`. -/
structure ToolOptions where
  walletPath : String := ""
  dbType : String := ""
  hexKey : String := ""
  removePass : Bool := false
  dumpKeys : Bool := false
  helpShown : Bool := false
deriving DecidableEq

/-- `WalletTool::validateOptions`. -/
def validateOptions (o : ToolOptions) : Except String Unit :=
  if o.walletPath == "" then .error "Wallet path must be specified"
  else if o.dumpKeys then
    if o.dbType != "" || o.hexKey != "" || o.removePass then
      .error "--dump-all-keys can only be used with --wallet"
    else .ok ()
  else if o.removePass then
    if o.dbType == "" || o.hexKey == "" then
      .error "--remove-pass requires --wallet, --type, and --KEY options"
    else .ok ()
  else .error "Either --dump-all-keys or --remove-pass must be specified"

/-- The argument loop of `WalletTool::parseArgs` followed by
`validateOptions`; `--help` returns immediately, skipping validation. -/
def goParse : List String → ToolOptions → Except String ToolOptions
  | [], o =>
    match validateOptions o with
    | .ok _ => .ok o
    | .error e => .error e
  | arg :: rest, o =>
    if arg == "--help" then .ok { o with helpShown := true }
    else if arg == "--wallet" then
      match rest with
      | [] => .error "Wallet path not specified"
      | p :: rest2 => goParse rest2 { o with walletPath := p }
    else if arg == "--type" then
      match rest with
      | [] => .error "Database type not specified"
      | t :: rest2 =>
        if t != "BerkelyDB" && t != "SQLite" then
          .error "Invalid database type. Must be BerkelyDB or SQLite"
        else goParse rest2 { o with dbType := t }
    else if arg == "--KEY" then
      match rest with
      | [] => .error "KEY not specified"
      | k :: rest2 =>
        if !isValidHexString k then
          .error "Invalid KEY format. Must be a 5-byte hexadecimal string"
        else goParse rest2 { o with hexKey := k }
    else if arg == "--remove-pass" then goParse rest { o with removePass := true }
    else if arg == "--dump-all-keys" then goParse rest { o with dumpKeys := true }
    else .error ("Unknown option: " ++ arg)

/-- `WalletTool::parseArgs` over the arguments after the program name. -/
def parseArgs (args : List String) : Except String ToolOptions :=
  match args with
  | [] => .error "No options provided. Use --help for usage information."
  | _ :: _ => goParse args {}

/-- The parts of the outside world `WalletTool::removePassword` touches:
existence and readability of the source path, its byte content when readable,
whether the Desktop directory can be created, and whether the destination
file can be opened for writing. -/
structure RemovalWorld where
  srcExists : Bool
  srcReadable : Bool
  srcBytes : List Nat
  mkdirOk : Bool
  destOpenOk : Bool
deriving DecidableEq

/-- `WalletTool::removePassword`.  On success the result carries the printed
confirmation line and the bytes written to the destination file.  The copy is
`dst << src.rdbuf()`, which inserts the source bytes unchanged; when it
inserts zero characters (empty source) the stream standard requires it to set
`failbit`, so the following `!dst.good()` check throws even though the
(empty) copy itself was complete.  Errors thrown inside the `try` block are
rewrapped with the "Failed to process wallet file: " prefix.  The `hexKey`
member is in scope but never read on this path. -/
def removePassword (hexKey : String) (w : RemovalWorld) : Except String (List String × List Nat) :=
  if !w.srcExists then .error "Source wallet file does not exist"
  else if !w.mkdirOk then .error "filesystem error: cannot create directories"
  else if !w.srcReadable then .error "Failed to process wallet file: Cannot open source wallet file"
  else if !w.destOpenOk then .error "Failed to process wallet file: Cannot create destination file"
  else if w.srcBytes.length == 0 then
    .error "Failed to process wallet file: Error occurred while writing destination file"
  else
    .ok (["The new wallet.dat file with the password removed was saved to: Desktop/wallet.dat"],
      w.srcBytes)

/-- The text printed by `WalletTool::showHelp` (modelled as one block). -/
def helpLines : List String :=
  ["Wallet Tool Usage: --wallet --type --KEY --remove-pass | --wallet --dump-all-keys | --help"]

/-- `WalletTool::execute`: dispatch on the parsed options. -/
def execute (o : ToolOptions) (walletContents : Option (List Nat)) (u48 u123 : List Nat)
    (w : RemovalWorld) : Except String (List String) :=
  if o.dumpKeys then dumpAllKeys o.walletPath walletContents u48 u123
  else if o.removePass then
    match removePassword o.hexKey w with
    | .error e => .error e
    | .ok r => .ok r.1
  else .ok []

/-- `main`: parse, execute, and catch every `std::exception` as a single
`"Error: "` line on the error stream with exit code 1; exit code 0 otherwise.
Result: (exit code, standard-output lines, error-stream lines). -/
def mainRun (args : List String) (walletContents : Option (List Nat)) (u48 u123 : List Nat)
    (w : RemovalWorld) : Nat × List String × List String :=
  match parseArgs args with
  | .error e => (1, [], ["Error: " ++ e])
  | .ok o =>
    match execute o walletContents u48 u123 w with
    | .error e => (1, if o.helpShown then helpLines else [], ["Error: " ++ e])
    | .ok out => (0, (if o.helpShown then helpLines else []) ++ out, [])

/-- Recognizer for emitted check-key lines (the fixed 16-character line
prefix), used to count such lines. -/
def isCkeyLine (l : String) : Bool :=
  l.data.take 16 == "encrypted ckey: ".data

/-- Decoder for one lowercase hexadecimal digit character. -/
def hexDigitVal (c : Char) : Nat :=
  if c.isDigit then c.toNat - '0'.toNat else c.toNat - 'a'.toNat + 10

/-- A character the hex reporter is allowed to emit: a lowercase hexadecimal
digit. -/
def isLowerHexDigit (c : Char) : Bool :=
  c.isDigit || (decide ('a' ≤ c) && decide (c ≤ 'f'))

/-- A 4-byte file consisting of exactly the tag "mkey": the 48-byte window at
offset 4 - 72 does not exist, yet the tool still emits a record. -/
def mkeyOnlyFile : List Nat := [109, 107, 101, 121]

/-- A 123-byte container with a fully-windowed "ckey" at offset 52 and no
"mkey" anywhere. -/
def noMkeyFile : List Nat := List.replicate 52 0 ++ [99, 107, 101, 121] ++ List.replicate 67 0

/-- A 131-byte container with a fully-windowed "ckey" at offset 60 and no
"mkey" anywhere. -/
def c4File : List Nat := List.replicate 60 0 ++ [99, 107, 101, 121] ++ List.replicate 67 0

/-- A 151-byte container with "mkey" at offset 72 (window fully available)
and a fully-windowed "ckey" at offset 80. -/
def bothTagsFile : List Nat :=
  List.replicate 72 1 ++ [109, 107, 101, 121] ++ List.replicate 4 2 ++
    [99, 107, 101, 121] ++ List.replicate 67 3

/-- An 8-byte container that is two adjacent "ckey" tags. -/
def strideFile : List Nat := [99, 107, 101, 121, 99, 107, 101, 121]

/-- A 123-byte all-zero buffer, standing for one possible content of the
uninitialised 123-byte `malloc` allocation. -/
def buf123 : List Nat := List.replicate 123 0

/-- A 48-byte all-zero buffer, standing for one possible content of the
uninitialised 48-byte `malloc` allocation. -/
def buf48 : List Nat := List.replicate 48 0

/-! ### Basic facts about tags and windows -/

/-- A successful 4-byte tag comparison can only happen when the whole 4-byte
tag lies inside the file. -/
theorem length_le_of_tagAt_eq {file : List Nat} {p : Nat} {t : List Nat}
    (ht : t.length = 4) (h : tagAt file p = t) : p + 4 ≤ file.length := by
  have hlen := congrArg List.length h
  simp only [tagAt, List.length_take, List.length_drop, ht] at hlen
  omega

/-- Reading a 4-element prefix pins down the first four cells of the list. -/
theorem take_four_eq {α : Type} {l : List α} {a b c d : α} (h : l.take 4 = [a, b, c, d]) :
    ∃ t, l = a :: b :: c :: d :: t := by
  rcases l with _ | ⟨x0, l⟩
  · simp at h
  rcases l with _ | ⟨x1, l⟩
  · simp at h
  rcases l with _ | ⟨x2, l⟩
  · simp at h
  rcases l with _ | ⟨x3, t⟩
  · simp at h
  simp only [List.take_succ_cons, List.take_zero, List.cons.injEq, and_true] at h
  obtain ⟨rfl, rfl, rfl, rfl⟩ := h
  exact ⟨t, rfl⟩

/-- The literal "ckey" has no non-trivial self-overlap: two distinct matches
are at least 4 bytes apart, so the extra cursor skip after a match can never
jump over another occurrence. -/
theorem ckey_no_overlap {file : List Nat} {i j : Nat} (hi : tagAt file i = ckeyTag)
    (hj : tagAt file j = ckeyTag) (hij : i < j) : i + 4 ≤ j := by
  by_contra hlt
  push_neg at hlt
  rw [tagAt, ckeyTag] at hi
  obtain ⟨t, ht⟩ := take_four_eq hi
  have hcases : j = i + 1 ∨ j = i + 2 ∨ j = i + 3 := by omega
  have hdrop : ∀ k, file.drop (i + k) = (file.drop i).drop k := by
    intro k
    rw [List.drop_drop, Nat.add_comm]
  rcases hcases with rfl | rfl | rfl
  · rw [tagAt, ckeyTag, hdrop 1, ht] at hj
    simp at hj
  · rw [tagAt, ckeyTag, hdrop 2, ht] at hj
    simp at hj
  · rw [tagAt, ckeyTag, hdrop 3, ht] at hj
    simp at hj

/-! ### The master-key pass -/

/-- Completeness of the first pass: if the loop terminates without a find,
then no position from the start cursor onward carries the "mkey" tag. -/
theorem firstMkeyAux_none {file : List Nat} :
    ∀ fuel i, file.length ≤ i + fuel → firstMkeyAux file fuel i = none →
      ∀ p, i ≤ p → tagAt file p ≠ mkeyTag := by
  intro fuel
  induction fuel with
  | zero =>
    intro i hle _ p hip hmatch
    have := length_le_of_tagAt_eq (t := mkeyTag) rfl hmatch
    omega
  | succ fuel ih =>
    intro i hle hnone p hip hmatch
    rw [firstMkeyAux] at hnone
    by_cases h4 : i + 4 ≤ file.length
    · rw [if_pos h4] at hnone
      by_cases htag : tagAt file i = mkeyTag
      · simp [htag] at hnone
      · rw [if_neg htag] at hnone
        rcases Nat.eq_or_lt_of_le hip with rfl | hlt
        · exact htag hmatch
        · exact ih (i + 1) (by omega) hnone p (by omega) hmatch
    · have := length_le_of_tagAt_eq (t := mkeyTag) rfl hmatch
      omega

/-- Soundness and minimality of the first pass: a find is a real match and it
is the first one at or after the start cursor. -/
theorem firstMkeyAux_some {file : List Nat} :
    ∀ fuel i p, firstMkeyAux file fuel i = some p →
      i ≤ p ∧ tagAt file p = mkeyTag ∧ ∀ q, i ≤ q → q < p → tagAt file q ≠ mkeyTag := by
  intro fuel
  induction fuel with
  | zero =>
    intro i p h
    simp [firstMkeyAux] at h
  | succ fuel ih =>
    intro i p h
    rw [firstMkeyAux] at h
    by_cases h4 : i + 4 ≤ file.length
    · rw [if_pos h4] at h
      by_cases htag : tagAt file i = mkeyTag
      · rw [if_pos htag] at h
        obtain rfl : i = p := by injection h
        exact ⟨Nat.le_refl _, htag, fun q hq1 hq2 => by omega⟩
      · rw [if_neg htag] at h
        obtain ⟨h1, h2, h3⟩ := ih (i + 1) p h
        refine ⟨by omega, h2, ?_⟩
        intro q hq1 hq2 hm
        rcases Nat.eq_or_lt_of_le hq1 with rfl | hlt
        · exact htag hm
        · exact h3 q (by omega) hq2 hm
    · rw [if_neg h4] at h
      exact Option.noConfusion h

/-- When some "mkey" tag occurs in the file, the first pass finds one. -/
theorem firstMkey_total {file : List Nat} (h : ∃ p, tagAt file p = mkeyTag) :
    ∃ q, firstMkeyAux file file.length 0 = some q := by
  rcases h with ⟨p, hp⟩
  cases hq : firstMkeyAux file file.length 0 with
  | some q => exact ⟨q, rfl⟩
  | none => exact absurd hp (firstMkeyAux_none file.length 0 (by omega) hq p (Nat.zero_le _))

/-! ### The check-key pass -/

/-- Soundness of the position schedule: every listed position is at or after
the start cursor and carries the "ckey" tag. -/
theorem ckeyPosAux_mem_imp {file : List Nat} :
    ∀ fuel i p, p ∈ ckeyPosAux file fuel i → i ≤ p ∧ tagAt file p = ckeyTag := by
  intro fuel
  induction fuel with
  | zero =>
    intro i p h
    simp [ckeyPosAux] at h
  | succ fuel ih =>
    intro i p h
    rw [ckeyPosAux] at h
    by_cases h4 : i + 4 ≤ file.length
    · rw [if_pos h4] at h
      by_cases htag : tagAt file i = ckeyTag
      · rw [if_pos htag] at h
        rcases List.mem_cons.mp h with rfl | hmem
        · exact ⟨Nat.le_refl _, htag⟩
        · obtain ⟨h1, h2⟩ := ih (i + 4) p hmem
          exact ⟨by omega, h2⟩
      · rw [if_neg htag] at h
        obtain ⟨h1, h2⟩ := ih (i + 1) p h
        exact ⟨by omega, h2⟩
    · rw [if_neg h4] at h
      simp at h

/-- Completeness of the position schedule: despite the extra skip of 3 bytes
after a match, every "ckey" occurrence at or after the start cursor is
listed, because "ckey" cannot overlap itself. -/
theorem ckeyPosAux_mem_of {file : List Nat} :
    ∀ fuel i p, file.length ≤ i + fuel → i ≤ p → tagAt file p = ckeyTag →
      p ∈ ckeyPosAux file fuel i := by
  intro fuel
  induction fuel with
  | zero =>
    intro i p hle hip hmatch
    have := length_le_of_tagAt_eq (t := ckeyTag) rfl hmatch
    omega
  | succ fuel ih =>
    intro i p hle hip hmatch
    have hpb := length_le_of_tagAt_eq (t := ckeyTag) rfl hmatch
    rw [ckeyPosAux]
    by_cases h4 : i + 4 ≤ file.length
    · rw [if_pos h4]
      by_cases htag : tagAt file i = ckeyTag
      · rw [if_pos htag]
        rcases Nat.eq_or_lt_of_le hip with rfl | hlt
        · exact List.mem_cons_self _ _
        · have hskip := ckey_no_overlap htag hmatch hlt
          exact List.mem_cons_of_mem _ (ih (i + 4) p (by omega) hskip hmatch)
      · rw [if_neg htag]
        rcases Nat.eq_or_lt_of_le hip with rfl | hlt
        · exact absurd hmatch htag
        · exact ih (i + 1) p (by omega) (by omega) hmatch
    · omega

/-- The position schedule is strictly increasing. -/
theorem ckeyPosAux_pairwise {file : List Nat} :
    ∀ fuel i, (ckeyPosAux file fuel i).Pairwise (· < ·) := by
  intro fuel
  induction fuel with
  | zero =>
    intro i
    simp [ckeyPosAux]
  | succ fuel ih =>
    intro i
    rw [ckeyPosAux]
    by_cases h4 : i + 4 ≤ file.length
    · rw [if_pos h4]
      by_cases htag : tagAt file i = ckeyTag
      · rw [if_pos htag]
        refine List.pairwise_cons.mpr ⟨?_, ih (i + 4)⟩
        intro q hq
        have := (ckeyPosAux_mem_imp fuel (i + 4) q hq).1
        omega
      · rw [if_neg htag]
        exact ih (i + 1)
    · rw [if_neg h4]
      exact List.Pairwise.nil

/-- Every line produced by the check-key loop starts with the fixed
"encrypted ckey: " prefix. -/
theorem ckeyScanAux_lines {file : List Nat} :
    ∀ fuel buf i, ∀ l ∈ ckeyScanAux file fuel buf i, isCkeyLine l = true := by
  intro fuel
  induction fuel with
  | zero =>
    intro buf i l h
    simp [ckeyScanAux] at h
  | succ fuel ih =>
    intro buf i l h
    rw [ckeyScanAux] at h
    by_cases h4 : i + 4 ≤ file.length
    · rw [if_pos h4] at h
      by_cases htag : tagAt file i = ckeyTag
      · rw [if_pos htag] at h
        rcases List.mem_cons.mp h with rfl | hmem
        · rw [isCkeyLine]
          have hdata : ("encrypted ckey: " ++
              tohex ((freadInto file (if i < 52 then i + 4 else i - 52) 123 buf).take 48)).data =
              "encrypted ckey: ".data ++
                (tohex ((freadInto file (if i < 52 then i + 4 else i - 52) 123 buf).take 48)).data :=
            rfl
          rw [hdata, show (16 : Nat) = ("encrypted ckey: ".data).length from rfl, List.take_left]
          simp
        · exact ih _ (i + 4) l hmem
      · rw [if_neg htag] at h
        exact ih buf (i + 1) l h
    · rw [if_neg h4] at h
      simp at h

/-- The check-key loop emits exactly one line per scheduled position, the hex
encoding of the first 48 bytes of the 123-byte window at that position minus
52, provided every "ckey" occurrence has its full window inside the file and
the buffer has its allocated size 123. -/
theorem ckeyScanAux_eq_map {file : List Nat}
    (hall : ∀ p < file.length, tagAt file p = ckeyTag → 52 ≤ p ∧ p + 71 ≤ file.length) :
    ∀ fuel i buf, file.length ≤ i + fuel → buf.length = 123 →
      ckeyScanAux file fuel buf i =
        (ckeyPosAux file fuel i).map
          (fun p => "encrypted ckey: " ++ tohex ((file.drop (p - 52)).take 48)) := by
  intro fuel
  induction fuel with
  | zero =>
    intro i buf _ _
    rfl
  | succ fuel ih =>
    intro i buf hle hbuf
    rw [ckeyScanAux, ckeyPosAux]
    by_cases h4 : i + 4 ≤ file.length
    · rw [if_pos h4, if_pos h4]
      by_cases htag : tagAt file i = ckeyTag
      · rw [if_pos htag, if_pos htag]
        obtain ⟨h52, h71⟩ := hall i (by omega) htag
        have hstart : ¬ i < 52 := by omega
        rw [if_neg hstart]
        have hwin : freadInto file (i - 52) 123 buf = (file.drop (i - 52)).take 123 := by
          rw [freadInto, show min 123 (file.length - (i - 52)) = 123 from by omega,
            List.drop_eq_nil_of_le (by omega : buf.length ≤ 123), List.append_nil]
        have hwinlen : ((file.drop (i - 52)).take 123).length = 123 := by
          rw [List.length_take, List.length_drop]
          omega
        rw [hwin, List.map_cons]
        refine congrArg₂ _ ?_ ?_
        · rw [List.take_take]
          norm_num
        · exact ih (i + 4) _ (by omega) hwinlen
      · rw [if_neg htag, if_neg htag]
        exact ih (i + 1) buf (by omega) hbuf
    · rw [if_neg h4, if_neg h4]
      rfl

/-! ### The hex reporter -/

set_option maxRecDepth 8192 in
/-- One padded insertion of a byte value: exactly two characters, both
lowercase hexadecimal digits, decoding most-significant-nibble first. -/
theorem setwPad2_hexDigits_spec : ∀ v, v < 256 →
    (setwPad2 (hexDigits v)).length = 2 ∧
    (setwPad2 (hexDigits v)).map hexDigitVal = [v / 16, v % 16] ∧
    ∀ c ∈ setwPad2 (hexDigits v), isLowerHexDigit c = true := by decide

/-- The reporter output has exactly two characters per input byte. -/
theorem tohex_length : ∀ bs : List Nat, (tohex bs).length = 2 * bs.length := by
  intro bs
  induction bs with
  | nil => rfl
  | cons b bs ih =>
    have h2 := (setwPad2_hexDigits_spec (b % 256) (Nat.mod_lt b (by omega))).1
    simp only [tohex, String.length, List.map_cons, List.flatten_cons,
      List.length_append] at ih ⊢
    rw [h2, List.length_cons]
    omega

/-- The reporter renders a concatenation of buffers as the concatenation of
their renderings: bytes are rendered in original buffer order. -/
theorem tohex_append (bs1 bs2 : List Nat) : tohex (bs1 ++ bs2) = tohex bs1 ++ tohex bs2 := by
  have h : ((bs1 ++ bs2).map (fun b => setwPad2 (hexDigits (b % 256)))).flatten =
      (bs1.map (fun b => setwPad2 (hexDigits (b % 256)))).flatten ++
        (bs2.map (fun b => setwPad2 (hexDigits (b % 256)))).flatten := by
    rw [List.map_append, List.flatten_append]
  rw [tohex, tohex, tohex, h]
  rfl

/-! ### Claim theorems -/

set_option maxRecDepth 20000 in
/-- C1 (counterexample): `noMkeyFile` holds a "ckey" occurrence at offset 52
whose full 123-byte window is inside the file, yet because no "mkey" tag is
present the tool prints only the no-master-key line and emits zero
"encrypted ckey" lines: the check-key pass is not performed. -/
theorem noMkey_ckey_not_scanned :
    tagAt noMkeyFile 52 = ckeyTag ∧ 52 + 71 ≤ noMkeyFile.length ∧
    dumpKeysOutput noMkeyFile buf48 buf123 = ["There is no Master Key in the file"] ∧
    (dumpKeysOutput noMkeyFile buf48 buf123).countP isCkeyLine = 0 := by decide

/-- C1 (amended): when no "mkey" tag is matched anywhere in the container,
the tool reports the explicit no-master-key outcome and returns immediately;
the check-key pass is not run, and the no-master-key line is the only output. -/
theorem no_mkey_skips_ckey_scan (file u48 u123 : List Nat)
    (h : ∀ p < file.length, tagAt file p ≠ mkeyTag) :
    dumpKeysOutput file u48 u123 = ["There is no Master Key in the file"] := by
  cases hq : firstMkeyAux file file.length 0 with
  | none => simp only [dumpKeysOutput, hq]
  | some p =>
    obtain ⟨_, h2, _⟩ := firstMkeyAux_some file.length 0 p hq
    have := length_le_of_tagAt_eq (t := mkeyTag) rfl h2
    exact absurd h2 (h p (by omega))

/-- C1 (witness): a six-byte all-zero container. -/
theorem no_mkey_skips_ckey_scan_witness :
    dumpKeysOutput (List.replicate 6 0) buf48 buf123 =
      ["There is no Master Key in the file"] :=
  no_mkey_skips_ckey_scan (List.replicate 6 0) buf48 buf123 (by decide)

/-- C2: on the 4-byte container consisting of exactly the tag "mkey", the
48-byte window at offset 0 - 72 does not exist (the whole file is shorter
than 48 bytes), yet the tool still emits a full-length "Mkey_encrypted"
record: the failed seek leaves the position after the tag, the short read
reads nothing, and the line shows the untouched 48-byte `malloc` buffer
content `u48`, whatever it was. -/
theorem truncated_mkey_record_emitted :
    mkeyOnlyFile.length = 4 ∧
    ∀ u48 : List Nat,
      dumpKeysOutput mkeyOnlyFile u48 buf123 = ["Mkey_encrypted: " ++ tohex u48, ""] :=
  ⟨rfl, fun _ => rfl⟩

/-- C3: for an existing, readable, empty source file (K = 0) and a writable
destination, the removal operation does not succeed: inserting zero
characters sets `failbit` on the destination stream, the `!dst.good()` check
misfires, and the run throws the write-error message even though the empty
copy was complete. -/
theorem empty_copy_reports_failure :
    removePassword "0123456789" ⟨true, true, [], true, true⟩ =
      .error "Failed to process wallet file: Error occurred while writing destination file" :=
  rfl

set_option maxRecDepth 20000 in
/-- C4 (counterexample): `c4File` holds exactly one "ckey" occurrence (at
offset 60) with its full 123-byte window available, so the claim demands one
"encrypted ckey" line; but the container has no "mkey" tag, the check-key
pass never runs, and zero such lines are emitted. -/
theorem ckey_without_mkey_not_reported :
    tagAt c4File 60 = ckeyTag ∧ 52 ≤ 60 ∧ 60 + 71 ≤ c4File.length ∧
    ((List.range c4File.length).filter (fun p => tagAt c4File p == ckeyTag)).length = 1 ∧
    (dumpKeysOutput c4File buf48 buf123).countP isCkeyLine = 0 := by decide

/-- C4 (amended): for every container that holds at least one "mkey" tag (so
the check-key pass runs) and in which every "ckey" occurrence has at least
123 bytes available from offset position - 52, the tool emits, after the
master-key output, exactly one "encrypted ckey" line per occurrence, in
ascending file-offset order, each line being the hex encoding of the first
48 bytes of the 123-byte window read at position - 52. -/
theorem ckey_report_complete (file u48 u123 : List Nat)
    (hmk : ∃ p, tagAt file p = mkeyTag)
    (hbuf : u123.length = 123)
    (hall : ∀ p < file.length, tagAt file p = ckeyTag → 52 ≤ p ∧ p + 71 ≤ file.length) :
    (∃ s, dumpKeysOutput file u48 u123 =
      ("Mkey_encrypted: " ++ s) :: "" ::
        (ckeyPositions file).map
          (fun p => "encrypted ckey: " ++ tohex ((file.drop (p - 52)).take 48))) ∧
    (ckeyPositions file).Pairwise (· < ·) ∧
    (∀ p, p ∈ ckeyPositions file ↔ tagAt file p = ckeyTag) := by
  obtain ⟨q, hq⟩ := firstMkey_total hmk
  refine ⟨⟨tohex (freadInto file (if q < 72 then q + 4 else q - 72) 48 u48), ?_⟩, ?_, ?_⟩
  · simp only [dumpKeysOutput, hq]
    rw [ckeyScanAux_eq_map hall file.length 0 u123 (by omega) hbuf]
    rfl
  · exact ckeyPosAux_pairwise file.length 0
  · intro p
    constructor
    · intro h
      exact (ckeyPosAux_mem_imp file.length 0 p h).2
    · intro h
      exact ckeyPosAux_mem_of file.length 0 p (by omega) (Nat.zero_le _) h

set_option maxRecDepth 20000 in
/-- C4 (witness): the 151-byte container with "mkey" at 72 and one
fully-windowed "ckey" at 80. -/
theorem ckey_report_complete_witness :
    (∃ s, dumpKeysOutput bothTagsFile buf48 buf123 =
      ("Mkey_encrypted: " ++ s) :: "" ::
        (ckeyPositions bothTagsFile).map
          (fun p => "encrypted ckey: " ++ tohex ((bothTagsFile.drop (p - 52)).take 48))) ∧
    (ckeyPositions bothTagsFile).Pairwise (· < ·) ∧
    (∀ p, p ∈ ckeyPositions bothTagsFile ↔ tagAt bothTagsFile p = ckeyTag) :=
  ckey_report_complete bothTagsFile buf48 buf123 ⟨72, by decide⟩ (by decide) (by decide)

/-- C5: in the check-key loop, whenever 4 bytes are readable at the cursor,
a non-matching iteration continues at cursor + 1 (a 1-byte stride, so
overlapping tag windows are tested), while a "ckey" match advances by 3
extra bytes before the uniform step, continuing at cursor + 4. -/
theorem ckey_scan_stride (file buf : List Nat) (fuel i : Nat) (h4 : i + 4 ≤ file.length) :
    (tagAt file i ≠ ckeyTag →
      ckeyScanAux file (fuel + 1) buf i = ckeyScanAux file fuel buf (i + 1)) ∧
    (tagAt file i = ckeyTag →
      ckeyScanAux file (fuel + 1) buf i =
        ("encrypted ckey: " ++
            tohex ((freadInto file (if i < 52 then i + 4 else i - 52) 123 buf).take 48)) ::
          ckeyScanAux file fuel (freadInto file (if i < 52 then i + 4 else i - 52) 123 buf)
            (i + 4)) := by
  constructor
  · intro htag
    rw [ckeyScanAux, if_pos h4, if_neg htag]
  · intro htag
    rw [ckeyScanAux, if_pos h4, if_pos htag]

/-- C5 (witness): on the container made of two adjacent "ckey" tags, the
match at cursor 0 continues the scan at cursor 4. -/
theorem ckey_scan_stride_witness :
    ckeyScanAux strideFile 8 buf123 0 =
      ("encrypted ckey: " ++ tohex ((freadInto strideFile 4 123 buf123).take 48)) ::
        ckeyScanAux strideFile 7 (freadInto strideFile 4 123 buf123) 4 :=
  (ckey_scan_stride strideFile buf123 7 0 (by decide)).2 (by decide)

/-- C6: the hex reporter emits exactly 2 characters per byte; it renders
buffers in original order (concatenation is preserved); each byte becomes
exactly two lowercase hexadecimal digits whose values are the high nibble
then the low nibble (so the high digit is the zero pad when the byte is
below 16); and byte 0x0A renders as "0a". -/
theorem tohex_contract :
    (∀ bs : List Nat, (tohex bs).length = 2 * bs.length) ∧
    (∀ bs1 bs2 : List Nat, tohex (bs1 ++ bs2) = tohex bs1 ++ tohex bs2) ∧
    (∀ b : Nat, b < 256 →
      (tohex [b]).data.map hexDigitVal = [b / 16, b % 16] ∧
      ∀ c ∈ (tohex [b]).data, isLowerHexDigit c = true) ∧
    tohex [10] = "0a" := by
  refine ⟨tohex_length, tohex_append, ?_, by decide⟩
  intro b hb
  have h := setwPad2_hexDigits_spec b hb
  have hdata : (tohex [b]).data = setwPad2 (hexDigits (b % 256)) := by
    simp [tohex]
  rw [Nat.mod_eq_of_lt hb] at hdata
  rw [hdata]
  exact ⟨h.2.1, h.2.2⟩

/-- C6 (witness): byte 0xAB decodes back to nibbles 10 and 11. -/
theorem tohex_contract_witness : (tohex [171]).data.map hexDigitVal = [10, 11] := by
  have h := (tohex_contract.2.2.1 171 (by norm_num)).1
  rw [h]

/-- C7: in every run of the key-dumping operation, either no "mkey" tag
occurs and the no-master-key line is the whole output, or the output starts
with exactly one "Mkey_encrypted" line for the first (lowest-offset) "mkey"
occurrence, followed by a blank line and then only "encrypted ckey"-prefixed
lines: later "mkey" occurrences are never reported. -/
theorem mkey_reported_once (file u48 u123 : List Nat) :
    (dumpKeysOutput file u48 u123 = ["There is no Master Key in the file"] ∧
      ∀ p, tagAt file p ≠ mkeyTag) ∨
    (∃ p, tagAt file p = mkeyTag ∧ (∀ q, tagAt file q = mkeyTag → p ≤ q) ∧
      dumpKeysOutput file u48 u123 =
        ("Mkey_encrypted: " ++
            tohex (freadInto file (if p < 72 then p + 4 else p - 72) 48 u48)) :: "" ::
          ckeyScanAux file file.length u123 0 ∧
      ∀ l ∈ ckeyScanAux file file.length u123 0, isCkeyLine l = true) := by
  cases hq : firstMkeyAux file file.length 0 with
  | none =>
    left
    refine ⟨by simp only [dumpKeysOutput, hq], ?_⟩
    intro p
    exact firstMkeyAux_none file.length 0 (by omega) hq p (Nat.zero_le _)
  | some p =>
    right
    obtain ⟨_, h2, h3⟩ := firstMkeyAux_some file.length 0 p hq
    refine ⟨p, h2, ?_, by simp only [dumpKeysOutput, hq], ckeyScanAux_lines file.length u123 0⟩
    intro q hmq
    by_contra hqp
    push_neg at hqp
    exact h3 q (Nat.zero_le _) hqp hmq

/-- C8: every run either exits 0 with an empty error stream, or exits 1
having written exactly one line prefixed "Error: " to the error stream. -/
theorem error_channel (args : List String) (wc : Option (List Nat)) (u48 u123 : List Nat)
    (w : RemovalWorld) :
    ((mainRun args wc u48 u123 w).1 = 0 ∧ (mainRun args wc u48 u123 w).2.2 = []) ∨
    ((mainRun args wc u48 u123 w).1 = 1 ∧
      ∃ m, (mainRun args wc u48 u123 w).2.2 = ["Error: " ++ m]) := by
  cases hp : parseArgs args with
  | error e =>
    refine Or.inr ⟨?_, e, ?_⟩ <;> simp [mainRun, hp]
  | ok o =>
    cases hx : execute o wc u48 u123 w with
    | error e =>
      refine Or.inr ⟨?_, e, ?_⟩ <;> simp [mainRun, hp, hx]
    | ok out =>
      refine Or.inl ⟨?_, ?_⟩ <;> simp [mainRun, hp, hx]

/-- C9: the removal path never reads the validated KEY: two runs on the same
world with any two valid keys perform the same actions and produce the same
result, message and destination bytes included. -/
theorem removal_ignores_key (k1 k2 : String) (w : RemovalWorld)
    (h1 : isValidHexString k1 = true) (h2 : isValidHexString k2 = true) :
    removePassword k1 w = removePassword k2 w :=
  rfl

/-- C9 (witness): two different valid keys on the same one-byte source. -/
theorem removal_ignores_key_witness :
    removePassword "0123456789" ⟨true, true, [7], true, true⟩ =
      removePassword "abcdefABCD" ⟨true, true, [7], true, true⟩ :=
  removal_ignores_key "0123456789" "abcdefABCD" ⟨true, true, [7], true, true⟩
    (by decide) (by decide)

/-- C10: the KEY validator accepts exactly the strings of 10 characters all
in 0-9, a-f or A-F (uppercase accepted; a "0x" prefix or any other length
rejected), and when the argument loop reaches a `--KEY` whose value fails
the validator it stops immediately with the invalid-format error, before any
scanning or copying. -/
theorem key_argument_validation :
    (∀ s : String, isValidHexString s = true ↔
      (s.length = 10 ∧ ∀ c ∈ s.data,
        (('0' ≤ c ∧ c ≤ '9') ∨ ('a' ≤ c ∧ c ≤ 'f') ∨ ('A' ≤ c ∧ c ≤ 'F')))) ∧
    isValidHexString "0123456ABC" = true ∧
    isValidHexString "0x12345678" = false ∧
    isValidHexString "012345678" = false ∧
    isValidHexString "01234567890" = false ∧
    (∀ (k : String) (rest : List String) (o : ToolOptions), isValidHexString k = false →
      goParse ("--KEY" :: k :: rest) o =
        .error "Invalid KEY format. Must be a 5-byte hexadecimal string") := by
  refine ⟨?_, by decide, by decide, by decide, by decide, ?_⟩
  · intro s
    simp [isValidHexString, List.all_eq_true, or_assoc, and_assoc]
  · intro k rest o hk
    simp [goParse, hk]

/-- C10 (witness): the loop rejects the 2-character value "zz". -/
theorem key_argument_validation_witness :
    goParse ["--KEY", "zz"] {} =
      .error "Invalid KEY format. Must be a 5-byte hexadecimal string" :=
  key_argument_validation.2.2.2.2.2 "zz" [] {} (by decide)
